import Mathlib

/-!
Shallow embedding of the mixture cubic-EOS engine of thermo/eos_mix.py:
the mixing-rule functions, the sequential-substitution flash loop, the
Michelsen stability decision, the PRMIX fugacity-coefficient formula and
the instance-level caching logic, together with theorems settling the
frozen claims about them.

Python floats are modelled as real numbers.  Python list indexing is
modelled with getD (all accesses in the translated code paths are
in range, so the default is never observed on well-formed input).
A raised Python exception is modelled with the Except type; a function
whose translated body cannot raise is total.
-/

open Classical

namespace ThermoSpec

/-- Indexing a list of floats, default 0 for out of range. -/
noncomputable def lget (l : List ℝ) (i : ℕ) : ℝ := l.getD i 0

/-- Indexing a matrix of floats, default 0 for out of range. -/
noncomputable def mget (m : List (List ℝ)) (i j : ℕ) : ℝ := lget (m.getD i []) j

/-- Modelled from the spec: the gas constant R imported from thermo.utils,
which is not under src/.  Only the positivity of R is used by any theorem
below, so its exact floating-point value is immaterial. -/
noncomputable def R : ℝ := 8.314462618

/-- Module level constant R_inv = 1.0/R of eos_mix.py. -/
noncomputable def R_inv : ℝ := 1 / R

/-- Module level constant R2_inv = R_inv*R_inv of eos_mix.py. -/
noncomputable def R2_inv : ℝ := R_inv * R_inv

/-- Final contents of entry (i, j) of the a_alpha_ijs matrix built by
a_alpha_aijs_composition_independent (and, with the identical expression,
by the support_zeros variant): the loop writes, for every pair with
i ≤ j, the value (1 - kijs[i][j]) * (sqrt(a_alphas[i]) * sqrt(a_alphas[j]))
into both (i, j) and (j, i), so the entry at an arbitrary index pair is
obtained by ordering the pair with min and max. -/
noncomputable def a_alpha_ijs_entry (a_alphas : List ℝ) (kijs : List (List ℝ))
    (i j : ℕ) : ℝ :=
  (1 - mget kijs (min i j) (max i j)) *
    (Real.sqrt (lget a_alphas (min i j)) * Real.sqrt (lget a_alphas (max i j)))

/-- The N x N a_alpha_ijs matrix produced by the mixing-matrix builders. -/
noncomputable def a_alpha_aijs (a_alphas : List ℝ) (kijs : List (List ℝ)) :
    List (List ℝ) :=
  (List.range a_alphas.length).map fun i =>
    (List.range a_alphas.length).map fun j => a_alpha_ijs_entry a_alphas kijs i j

/-- Final contents of entry (i, j) of a_alpha_ij_roots_inv as built by
a_alpha_aijs_composition_independent_support_zeros: the loop only writes
the upper triangle (j in range(i, N)), leaving the strict lower triangle
at its initial 0.0; each written entry is 1/term for
term = sqrt(a_alphas[i])*sqrt(a_alphas[j]), except that a term of zero
(the ZeroDivisionError case) is replaced by the sentinel 1e100. -/
noncomputable def a_alpha_ij_roots_inv_entry (a_alphas : List ℝ) (i j : ℕ) : ℝ :=
  if i ≤ j then
    if Real.sqrt (lget a_alphas i) * Real.sqrt (lget a_alphas j) = 0 then 1e100
    else 1 / (Real.sqrt (lget a_alphas i) * Real.sqrt (lget a_alphas j))
  else 0

/-- The a_alpha_ij_roots_inv matrix of the support_zeros variant. -/
noncomputable def a_alpha_ij_roots_inv_sz (a_alphas : List ℝ) : List (List ℝ) :=
  (List.range a_alphas.length).map fun i =>
    (List.range a_alphas.length).map fun j => a_alpha_ij_roots_inv_entry a_alphas i j

/-- Translation of a_alpha_aijs_composition_independent_support_zeros
(eos_mix.py lines 87-109).  It is a total function: the ZeroDivisionError
of the plain variant is caught internally and replaced by the 1e100
sentinel, so no error can escape. -/
noncomputable def a_alpha_aijs_composition_independent_support_zeros
    (a_alphas : List ℝ) (kijs : List (List ℝ)) :
    List (List ℝ) × List ℝ × List (List ℝ) :=
  (a_alpha_aijs a_alphas kijs, a_alphas.map Real.sqrt,
    a_alpha_ij_roots_inv_sz a_alphas)

/-- Translation of a_alpha_aijs_composition_independent (eos_mix.py lines
57-84).  The loop divides by term = sqrt(a_alphas[i])*sqrt(a_alphas[j])
for every pair i ≤ j < N; a zero term raises ZeroDivisionError, modelled
as Except.error.  When no term is zero the produced matrices coincide with
the support_zeros variant, whose sentinel branch is then never taken. -/
noncomputable def a_alpha_aijs_composition_independent
    (a_alphas : List ℝ) (kijs : List (List ℝ)) :
    Except Unit (List (List ℝ) × List ℝ × List (List ℝ)) :=
  if ∃ i, i < a_alphas.length ∧ ∃ j, i ≤ j ∧ j < a_alphas.length ∧
      Real.sqrt (lget a_alphas i) * Real.sqrt (lget a_alphas j) = 0 then
    Except.error ()
  else
    Except.ok (a_alpha_aijs_composition_independent_support_zeros a_alphas kijs)

/-- The a_alpha accumulation loop of a_alpha_and_derivatives (eos_mix.py
lines 112-130), reading from a given pairwise matrix: for each i it adds
term + term for each j in range(i+1, N) with
term = a_alpha_ijs[i][j]*zs[i]*zs[j], then adds the diagonal
contribution a_alpha_ijs[i][i]*zs[i]*zs[i]. -/
noncomputable def a_alpha_from_ijs (aijs : List (List ℝ)) (zs : List ℝ) (N : ℕ) : ℝ :=
  ∑ i ∈ Finset.range N,
    ((∑ j ∈ Finset.Ico (i + 1) N,
        (mget aijs i j * lget zs i * lget zs j + mget aijs i j * lget zs i * lget zs j))
      + mget aijs i i * lget zs i * lget zs i)

/-- Translation of a_alpha_and_derivatives (eos_mix.py lines 112-130) in
the case where no precomputed pairwise matrices are passed: it builds the
pairwise matrix and runs the accumulation loop, returning the mixture
a_alpha scalar. -/
noncomputable def a_alpha_and_derivatives (a_alphas zs : List ℝ)
    (kijs : List (List ℝ)) : ℝ :=
  a_alpha_from_ijs (a_alpha_aijs a_alphas kijs) zs a_alphas.length

/-- Failure modes of the sequential-substitution flash loop, raised as
ValueError in the source. -/
inductive FlashError where
  | trivialSolution : FlashError
  | noConvergence : FlashError
deriving DecidableEq

/-- Successful output of the sequential-substitution flash loop: the
vapor fraction, both phase compositions, and the final error sum err3
(recorded by the source in the optional info argument). -/
structure SSOut where
  V_over_F : ℝ
  xs : List ℝ
  ys : List ℝ
  err : ℝ

/-- The negative-mole-fraction guard of sequential_substitution_VL
(eos_mix.py lines 1944-1953): if any entry of the freshly computed phase
composition is negative, the whole vector is replaced by the absolute
values of its entries divided by the sum of those absolute values;
otherwise it is left unchanged. -/
noncomputable def renormIfNeg (l : List ℝ) : List ℝ :=
  if ∃ x ∈ l, x < 0 then
    l.map fun x => |x| / (l.map fun y => |y|).sum
  else l

/-- The comp_difference quantity of sequential_substitution_VL: the sum
over species of the absolute composition difference between the two
trial phases. -/
noncomputable def compDiff (xs ys : List ℝ) : ℝ :=
  ((xs.zip ys).map fun p => |p.1 - p.2|).sum

/-- The err3 accumulation of sequential_substitution_VL: the sum over
zip(Ks, xs, ys) of (Ki*xi/yi - 1)^2, evaluated at the compositions from
which the current K values were produced. -/
noncomputable def errSS (Ks xs ys : List ℝ) : ℝ :=
  ((Ks.zip (xs.zip ys)).map fun t =>
    (t.1 * t.2.1 / t.2.2 - 1) * (t.1 * t.2.1 / t.2.2 - 1)).sum

/-- Translation of the iteration loop of GCEOSMIX.sequential_substitution_VL
(eos_mix.py lines 1794-1992), entered with trial compositions already in
hand (the source skips its Wilson/Rachford-Rice initialisation whenever
xs and ys are supplied).  The per-composition fugacity-coefficient
evaluations (to_TP_zs_fast followed by fugacity_coefficients, including
the near-critical root fallback) are summarised by the oracles lnphis_l
and lnphis_g, and the external Rachford-Rice routine flash_inner_loop
from thermo.activity by the oracle rr taking (zs, Ks, guess).  The fuel
argument is the number of iterations still allowed; the source iterates
i = 0 .. maxiter-1 and raises on the last index, so fuel = 1 marks the
final iteration.  A zero maxiter never executes the body and the source
then fails on its unbound result variables, modelled as the
no-convergence error.  The body order follows the source: compute Ks
from the fugacity coefficients, call Rachford-Rice, apply the
negative-composition guard to each phase, compute err3 against the
previous compositions, then test the trivial-solution guard (only when
near_critical), then the convergence break, then the iteration bound. -/
noncomputable def sequential_substitution_VL
    (lnphis_l lnphis_g : List ℝ → List ℝ)
    (rr : List ℝ → List ℝ → Option ℝ → ℝ × List ℝ × List ℝ)
    (zs : List ℝ) (xtol trivial_solution_tol : ℝ) (near_critical : Bool) :
    ℕ → List ℝ → List ℝ → Option ℝ → Except FlashError SSOut
  | 0, _, _, _ => Except.error FlashError.noConvergence
  | fuel + 1, xs, ys, VF =>
    let Ks := List.zipWith (fun l g => Real.exp (l - g)) (lnphis_l xs) (lnphis_g ys)
    let step := rr zs Ks VF
    let xs2 := renormIfNeg step.2.1
    let ys2 := renormIfNeg step.2.2
    let err3 := errSS Ks xs ys
    if near_critical = true ∧ compDiff xs2 ys2 < trivial_solution_tol then
      Except.error FlashError.trivialSolution
    else if err3 < xtol then Except.ok ⟨step.1, xs2, ys2, err3⟩
    else if fuel = 0 then Except.error FlashError.noConvergence
    else sequential_substitution_VL lnphis_l lnphis_g rr zs xtol
      trivial_solution_tol near_critical fuel xs2 ys2 (some step.1)

/-- Outcome of one one-sided trial of stabiliy_iteration_Michelsen, as
returned to stability_Michelsen: the unnormalized trial mole-number sum,
the trial K values, and the phase-failure flag (reference and trial
phase types coincided). -/
structure StabTrial where
  zs_sum : ℝ
  Ks : List ℝ
  phase_failure : Bool

/-- The quantity lnK_2_tot of stability_Michelsen: the sum of squared
logarithms of the trial K values. -/
noncomputable def lnK2tot (Ks : List ℝ) : ℝ :=
  ((Ks.map Real.log).map fun x => x * x).sum

/-- Result of stability_Michelsen: the stability verdict, the returned
K-value estimate, and the two raw trial K-value vectors. -/
structure StabOut where
  stable : Prop
  Ks : List ℝ
  Ks_g : List ℝ
  Ks_l : List ℝ

/-- Translation of the decision logic of GCEOSMIX.stability_Michelsen
(eos_mix.py lines 2067-2151).  The two one-sided trials invoke the
EOS fugacity machinery through stabiliy_iteration_Michelsen; their
results enter here as the g and l arguments, and Ks_init is the K vector
the method starts from (Wilson estimates unless supplied).  The verdict
follows the if/elif chain of the source exactly: stable when both trials
phase-failed, or when both are trivial, or when one is trivial and the
other within the stable_criteria of unit mole-number sum, or when both
are within that criteria; when not stable the returned K estimate is the
elementwise product of the two trial K vectors, otherwise the initial
Ks are returned unchanged. -/
noncomputable def stability_Michelsen (Ks_init : List ℝ) (g l : StabTrial)
    (trivial_criteria stable_criteria : ℝ) : StabOut :=
  let sum_g_criteria := g.zs_sum - 1
  let sum_l_criteria := l.zs_sum - 1
  let trivial_g := lnK2tot g.Ks < trivial_criteria
  let trivial_l := lnK2tot l.Ks < trivial_criteria
  let stable := (g.phase_failure = true ∧ l.phase_failure = true)
    ∨ (trivial_g ∧ trivial_l)
    ∨ (sum_g_criteria < stable_criteria ∧ trivial_l)
    ∨ (trivial_g ∧ sum_l_criteria < stable_criteria)
    ∨ (sum_g_criteria < stable_criteria ∧ sum_l_criteria < stable_criteria)
  { stable := stable
    Ks := if stable then Ks_init else List.zipWith (fun a b => a * b) g.Ks l.Ks
    Ks_g := g.Ks
    Ks_l := l.Ks }

/-- Stability criterion in the words of the claim: each of the two
one-sided trials is classified as trivial or within the stability
threshold of the reference.  This definition follows the claim text, to
be compared against the decision actually taken by stability_Michelsen. -/
noncomputable def claimed_stable (g l : StabTrial)
    (trivial_criteria stable_criteria : ℝ) : Prop :=
  (lnK2tot g.Ks < trivial_criteria ∨ g.zs_sum - 1 < stable_criteria)
  ∧ (lnK2tot l.Ks < trivial_criteria ∨ l.zs_sum - 1 < stable_criteria)

/-- Model of the Python math-library log as imported in eos_mix.py: it
raises ValueError (here Except.error) on a non-positive argument. -/
noncomputable def trylog (x : ℝ) : Except Unit ℝ :=
  if 0 < x then Except.ok (Real.log x) else Except.error ()

/-- Translation of PRMIX.fugacity_coefficients (eos_mix.py lines
6229-6301), with the two try/except ValueError blocks already resolved:
a log term whose argument is not positive is replaced by 0.0, and a zero
denominator a_alpha*two_root_two_B (the caught ZeroDivisionError) makes
the method return a list of N zeros.  The instance attributes read by
the method body (T, P, a_alpha, b, bs, _fugacity_sum_terms, N) are
passed as arguments. -/
noncomputable def PRMIX_fugacity_coefficients
    (T P a_alpha b : ℝ) (bs fugacity_sum_terms : List ℝ) (N : ℕ) (Z : ℝ) :
    List ℝ :=
  let T_inv := 1 / T
  let P_T := P * T_inv
  let A := a_alpha * P_T * R2_inv * T_inv
  let B := b * P_T * R_inv
  let x0 := if 0 < Z - B then Real.log (Z - B) else 0
  let root_two_B := B * Real.sqrt 2
  let two_root_two_B := root_two_B + root_two_B
  let ZB := Z + B
  let x4arg := (ZB + root_two_B) / (ZB - root_two_B)
  let x4 := if 0 < x4arg then A * Real.log x4arg else 0
  if a_alpha * two_root_two_B = 0 then List.replicate N 0
  else
    let t50 := 2 * x4 / (a_alpha * two_root_two_B)
    let t51 := (x4 + (Z - 1) * two_root_two_B) / (b * two_root_two_B)
    (List.range N).map fun i => lget bs i * t51 - x0 - t50 * lget fugacity_sum_terms i

/-- The same formula as PRMIX_fugacity_coefficients but with the log
domain errors propagated instead of caught, used to express what the
method would do without its try/except blocks. -/
noncomputable def PRMIX_fugacity_coefficients_unguarded
    (T P a_alpha b : ℝ) (bs fugacity_sum_terms : List ℝ) (N : ℕ) (Z : ℝ) :
    Except Unit (List ℝ) :=
  let T_inv := 1 / T
  let P_T := P * T_inv
  let A := a_alpha * P_T * R2_inv * T_inv
  let B := b * P_T * R_inv
  (trylog (Z - B)).bind fun x0 =>
    let root_two_B := B * Real.sqrt 2
    let two_root_two_B := root_two_B + root_two_B
    let ZB := Z + B
    (trylog ((ZB + root_two_B) / (ZB - root_two_B))).bind fun lg =>
      let x4 := A * lg
      if a_alpha * two_root_two_B = 0 then Except.ok (List.replicate N 0)
      else
        let t50 := 2 * x4 / (a_alpha * two_root_two_B)
        let t51 := (x4 + (Z - 1) * two_root_two_B) / (b * two_root_two_B)
        Except.ok ((List.range N).map fun i =>
          lget bs i * t51 - x0 - t50 * lget fugacity_sum_terms i)

/-- The value PRMIX.fugacity_coefficients produces when the first log
term is substituted by zero: the same body as the translation above but
with x0 fixed to 0, used to state that on a non-positive log argument
the method returns exactly the formula with zero in place of that
term. -/
noncomputable def PRMIX_fugacity_coefficients_x0zero
    (T P a_alpha b : ℝ) (bs fugacity_sum_terms : List ℝ) (N : ℕ) (Z : ℝ) :
    List ℝ :=
  let T_inv := 1 / T
  let P_T := P * T_inv
  let A := a_alpha * P_T * R2_inv * T_inv
  let B := b * P_T * R_inv
  let x0 : ℝ := 0
  let root_two_B := B * Real.sqrt 2
  let two_root_two_B := root_two_B + root_two_B
  let ZB := Z + B
  let x4arg := (ZB + root_two_B) / (ZB - root_two_B)
  let x4 := if 0 < x4arg then A * Real.log x4arg else 0
  if a_alpha * two_root_two_B = 0 then List.replicate N 0
  else
    let t50 := 2 * x4 / (a_alpha * two_root_two_B)
    let t51 := (x4 + (Z - 1) * two_root_two_B) / (b * two_root_two_B)
    (List.range N).map fun i => lget bs i * t51 - x0 - t50 * lget fugacity_sum_terms i

/-- The logF computation of GCEOSMIX.fugacity_coefficients (eos_mix.py
lines 3987-3999): log(F) is attempted and, on the exception raised for a
non-positive argument, the value log(sys.float_info.min) =
-690.7755278982137 is substituted. -/
noncomputable def GCEOSMIX_logF (F : ℝ) : ℝ :=
  if 0 < F then Real.log F else -690.7755278982137

/-- The cached pairwise quantities of a mixture EOS instance:
a_alpha_ijs, a_alpha_i_roots and a_alpha_ij_roots_inv. -/
structure CacheTriple where
  a_alpha_ijs : List (List ℝ)
  a_alpha_i_roots : List ℝ
  a_alpha_ij_roots_inv : List (List ℝ)

/-- The instance state read and written by a_alpha_and_derivatives_py:
the temperature of the instance, its composition, its interaction matrix
and the optional cached pairwise triple (absent attributes modelled as
none). -/
structure MixState where
  T : ℝ
  zs : List ℝ
  kijs : List (List ℝ)
  cache : Option CacheTriple

/-- The freshly computed pairwise triple: the source tries
a_alpha_aijs_composition_independent and falls back to the
support_zeros variant on ZeroDivisionError; since both build the
identical a_alpha_ijs matrix and root list and differ only at the
reciprocal entries on which the plain variant raises, the combined
try/except always yields the support_zeros values. -/
noncomputable def fresh_pairwise (a_alphas : List ℝ) (kijs : List (List ℝ)) :
    CacheTriple :=
  ⟨a_alpha_aijs a_alphas kijs, a_alphas.map Real.sqrt,
    a_alpha_ij_roots_inv_sz a_alphas⟩

/-- The da_alpha_dT accumulation of a_alpha_and_derivatives_full
(eos_mix.py lines 163-218), reading the reciprocal pairwise roots
x0_05_inv from the given roots_inv matrix: for each pair i ≤ j the term
-0.5*(kijs[i][j] - 1)*(ai*daj + aj*dai)*x0_05_inv is scaled by zi*zj and
added once on the diagonal and twice off it. -/
noncomputable def da_alpha_dT_from (a_alphas da_alpha_dTs : List ℝ)
    (kijs roots_inv : List (List ℝ)) (zs : List ℝ) (N : ℕ) : ℝ :=
  ∑ i ∈ Finset.range N, ∑ j ∈ Finset.Ico i N,
    (let t := -0.5 * (mget kijs i j - 1)
        * (lget a_alphas i * lget da_alpha_dTs j + lget a_alphas j * lget da_alpha_dTs i)
        * mget roots_inv i j * (lget zs i * lget zs j)
     if i = j then t else t + t)

/-- Output of a_alpha_and_derivatives_py as modelled here: the mixture
a_alpha scalar, its first temperature derivative, the pairwise triple
the computation read its matrices from, and the updated instance
state. -/
structure AADOut where
  a_alpha : ℝ
  da_alpha_dT : ℝ
  used : CacheTriple
  state : MixState

/-- Translation of the cache handling of GCEOSMIX.a_alpha_and_derivatives_py
(eos_mix.py lines 646-695).  In the quick branch the source asserts
T == self.T and reads the three cached attributes, recomputing them (and
storing the recomputation) whenever the assertion or the attribute read
fails; in the non-quick branch it always recomputes and stores the
result only at an unchanged temperature.  The a_alpha and da_alpha_dT
outputs are then accumulated from the selected matrices exactly as in
a_alpha_and_derivatives_full. -/
noncomputable def a_alpha_and_derivatives_py (s : MixState)
    (a_alphas da_alpha_dTs : List ℝ) (T : ℝ) (quick : Bool) : AADOut :=
  let N := a_alphas.length
  let outFrom : CacheTriple → MixState → AADOut := fun c s2 =>
    ⟨a_alpha_from_ijs c.a_alpha_ijs s.zs N,
     da_alpha_dT_from a_alphas da_alpha_dTs s.kijs c.a_alpha_ij_roots_inv s.zs N,
     c, s2⟩
  if quick = true then
    match (if T = s.T then s.cache else none) with
    | some c => outFrom c s
    | none =>
      let c := fresh_pairwise a_alphas s.kijs
      outFrom c { s with cache := some c }
  else
    let c := fresh_pairwise a_alphas s.kijs
    outFrom c (if T = s.T then { s with cache := some c } else s)

/-- Result of GCEOSMIX.to_TP_zs: either the instance itself is returned,
or a new instance is constructed from the given specification. -/
inductive ToTPZsResult where
  | same : ToTPZsResult
  | construct : ℝ → ℝ → List ℝ → ToTPZsResult

/-- Translation of GCEOSMIX.to_TP_zs (eos_mix.py lines 303-307): when
any of T, P or zs differs from the stored values a new instance is
constructed at the requested specification, otherwise the very same
object is returned. -/
noncomputable def to_TP_zs (sT sP : ℝ) (szs : List ℝ) (T P : ℝ) (zs : List ℝ) :
    ToTPZsResult :=
  if T ≠ sT ∨ P ≠ sP ∨ zs ≠ szs then ToTPZsResult.construct T P zs
  else ToTPZsResult.same

lemma lget_nonneg {a : List ℝ} (h : ∀ x ∈ a, 0 ≤ x) (i : ℕ) : 0 ≤ lget a i := by
  unfold lget
  rcases Nat.lt_or_ge i a.length with h1 | h1
  · rw [List.getD_eq_getElem a 0 h1]
    exact h _ (List.getElem_mem h1)
  · rw [List.getD_eq_default a 0 h1]

lemma mget_map_range (f : ℕ → ℕ → ℝ) {N i j : ℕ} (hi : i < N) (hj : j < N) :
    mget ((List.range N).map fun i => (List.range N).map fun j => f i j) i j
      = f i j := by
  simp [mget, lget, List.getD_eq_getElem?_getD, List.getElem?_map,
    List.getElem?_range, hi, hj]

lemma sum_triangle (f : ℕ → ℕ → ℝ) :
    ∀ N : ℕ, (∀ i j, i < N → j < N → f i j = f j i) →
      ∑ i ∈ Finset.range N, ∑ j ∈ Finset.range N, f i j
        = ∑ i ∈ Finset.range N, ((∑ j ∈ Finset.Ico (i + 1) N, (f i j + f i j)) + f i i)
  | 0, _ => by simp
  | (n + 1), hf => by
    have ih := sum_triangle f n fun i j hi hj =>
      hf i j (Nat.lt_succ_of_lt hi) (Nat.lt_succ_of_lt hj)
    rw [Finset.sum_range_succ, Finset.sum_range_succ
      (fun i => (∑ j ∈ Finset.Ico (i + 1) (n + 1), (f i j + f i j)) + f i i)]
    have hIcoEmpty : Finset.Ico (n + 1) (n + 1) = ∅ := Finset.Ico_self (n + 1)
    rw [hIcoEmpty]
    simp only [Finset.sum_empty, zero_add]
    have hInner : ∀ i ∈ Finset.range n,
        ∑ j ∈ Finset.range (n + 1), f i j = (∑ j ∈ Finset.range n, f i j) + f i n :=
      fun i _ => Finset.sum_range_succ (fun j => f i j) n
    rw [Finset.sum_congr rfl hInner, Finset.sum_add_distrib, ih,
      Finset.sum_range_succ (fun j => f n j)]
    have hRIco : ∀ i ∈ Finset.range n,
        (∑ j ∈ Finset.Ico (i + 1) (n + 1), (f i j + f i j)) + f i i
          = ((∑ j ∈ Finset.Ico (i + 1) n, (f i j + f i j)) + f i i) + (f i n + f i n) := by
      intro i hi
      rw [Finset.sum_Ico_succ_top (Nat.succ_le_of_lt (Finset.mem_range.mp hi))]
      ring
    rw [Finset.sum_congr rfl hRIco]
    have hsymmRow : ∑ j ∈ Finset.range n, f n j = ∑ j ∈ Finset.range n, f j n :=
      Finset.sum_congr rfl fun j hj =>
        hf n j (Nat.lt_succ_self n) (Nat.lt_succ_of_lt (Finset.mem_range.mp hj))
    rw [hsymmRow]
    simp only [Finset.sum_add_distrib]
    ring

lemma a_alpha_ijs_entry_eq {a_alphas : List ℝ} {kijs : List (List ℝ)} {i j : ℕ}
    (hnn : ∀ x ∈ a_alphas, 0 ≤ x)
    (hsymm : ∀ p q, p < a_alphas.length → q < a_alphas.length →
      mget kijs p q = mget kijs q p)
    (hi : i < a_alphas.length) (hj : j < a_alphas.length) :
    a_alpha_ijs_entry a_alphas kijs i j
      = (1 - mget kijs i j) * Real.sqrt (lget a_alphas i * lget a_alphas j) := by
  have hs : Real.sqrt (lget a_alphas i * lget a_alphas j)
      = Real.sqrt (lget a_alphas i) * Real.sqrt (lget a_alphas j) :=
    Real.sqrt_mul (lget_nonneg hnn i) _
  unfold a_alpha_ijs_entry
  rcases le_or_lt i j with hij | hij
  · rw [Nat.min_eq_left hij, Nat.max_eq_right hij, hs]
  · have hji : j ≤ i := Nat.le_of_lt hij
    rw [Nat.min_eq_right hji, Nat.max_eq_left hji, hsymm j i hj hi, hs]
    ring

lemma mget_a_alpha_aijs {a_alphas : List ℝ} {kijs : List (List ℝ)} {i j : ℕ}
    (hi : i < a_alphas.length) (hj : j < a_alphas.length) :
    mget (a_alpha_aijs a_alphas kijs) i j = a_alpha_ijs_entry a_alphas kijs i j :=
  mget_map_range (a_alpha_ijs_entry a_alphas kijs) hi hj

/-- C1: for every composition vector zs of length N, pure-species
attraction values a_alphas (nonnegative, as produced by the squared
alpha-function forms), and symmetric interaction matrix kijs with zero
diagonal, the mixture attraction parameter a_alpha computed by
a_alpha_and_derivatives equals the double sum over all i, j of
zs[i]*zs[j]*(1-kijs[i][j])*sqrt(a_alphas[i]*a_alphas[j]). -/
theorem C1_a_alpha_eq_double_sum (a_alphas zs : List ℝ) (kijs : List (List ℝ))
    (hnn : ∀ x ∈ a_alphas, 0 ≤ x)
    (hsymm : ∀ p q, p < a_alphas.length → q < a_alphas.length →
      mget kijs p q = mget kijs q p)
    (hdiag : ∀ p, p < a_alphas.length → mget kijs p p = 0)
    (hlen : zs.length = a_alphas.length) :
    a_alpha_and_derivatives a_alphas zs kijs
      = ∑ i ∈ Finset.range a_alphas.length, ∑ j ∈ Finset.range a_alphas.length,
          lget zs i * lget zs j * (1 - mget kijs i j)
            * Real.sqrt (lget a_alphas i * lget a_alphas j) := by
  set N := a_alphas.length with hN
  set g : ℕ → ℕ → ℝ := fun i j =>
    lget zs i * lget zs j * (1 - mget kijs i j)
      * Real.sqrt (lget a_alphas i * lget a_alphas j) with hg
  have hgsymm : ∀ i j, i < N → j < N → g i j = g j i := by
    intro i j hi hj
    simp only [hg]
    rw [hsymm i j hi hj, mul_comm (lget a_alphas i) (lget a_alphas j)]
    ring
  have hterm : ∀ i j, i < N → j < N →
      mget (a_alpha_aijs a_alphas kijs) i j * lget zs i * lget zs j = g i j := by
    intro i j hi hj
    rw [mget_a_alpha_aijs hi hj, a_alpha_ijs_entry_eq hnn hsymm hi hj]
    simp only [hg]
    ring
  rw [sum_triangle g N hgsymm]
  unfold a_alpha_and_derivatives a_alpha_from_ijs
  refine Finset.sum_congr rfl fun i hi => ?_
  have hiN : i < N := Finset.mem_range.mp hi
  have hIco : ∀ j ∈ Finset.Ico (i + 1) N,
      mget (a_alpha_aijs a_alphas kijs) i j * lget zs i * lget zs j
          + mget (a_alpha_aijs a_alphas kijs) i j * lget zs i * lget zs j
        = g i j + g i j := by
    intro j hj
    rw [hterm i j hiN (Finset.mem_Ico.mp hj).2]
  rw [Finset.sum_congr rfl hIco, hterm i i hiN hiN]

/-- C1 witness: the theorem applied to a concrete two-component system
with a_alphas = [1, 4], zs = [1/2, 1/2] and kijs = [[0, 0], [0, 0]]. -/
theorem C1_witness :
    a_alpha_and_derivatives [1, 4] [1/2, 1/2] [[0, 0], [0, 0]]
      = ∑ i ∈ Finset.range 2, ∑ j ∈ Finset.range 2,
          lget [1/2, 1/2] i * lget [1/2, 1/2] j
            * (1 - mget [[0, 0], [0, 0]] i j)
            * Real.sqrt (lget [1, 4] i * lget [1, 4] j) := by
  have h := C1_a_alpha_eq_double_sum [1, 4] [1/2, 1/2] [[0, 0], [0, 0]]
    (by intro x hx; simp at hx; rcases hx with h | h <;> norm_num [h])
    (by
      intro p q hp hq
      simp only [List.length_cons, List.length_nil] at hp hq
      interval_cases p <;> interval_cases q <;> norm_num [mget, lget])
    (by
      intro p hp
      simp only [List.length_cons, List.length_nil] at hp
      interval_cases p <;> norm_num [mget, lget])
    (by norm_num)
  simpa using h

/-- C9: for single-component input (N = 1, zs = [1.0], kijs = [[0.0]]),
the mixing-rule engine degenerates exactly to the pure-component
formulas: a_alpha_ijs is a 1x1 matrix whose sole entry equals the pure
species alpha value, and the mixture a_alpha equals that same pure
alpha. -/
theorem C9_single_component (a : ℝ) (h : 0 ≤ a) :
    a_alpha_aijs [a] [[0]] = [[a]]
      ∧ a_alpha_and_derivatives [a] [1] [[0]] = a := by
  have hsq : Real.sqrt a * Real.sqrt a = a := Real.mul_self_sqrt h
  constructor
  · simp [a_alpha_aijs, a_alpha_ijs_entry, List.range_succ, mget, lget, hsq]
  · simp [a_alpha_and_derivatives, a_alpha_from_ijs, a_alpha_aijs,
      a_alpha_ijs_entry, List.range_succ, mget, lget, hsq]

/-- C9 witness: the theorem applied at the concrete pure alpha value 4. -/
theorem C9_witness :
    a_alpha_aijs [4] [[0]] = [[4]] ∧ a_alpha_and_derivatives [4] [1] [[0]] = 4 :=
  C9_single_component 4 (by norm_num)

/-- C6: for every a_alphas input in which some entry is exactly zero
(all entries nonnegative, kijs symmetric), the divide-safe support_zeros
variant returns normally — it is a total function, while the plain
variant raises the division error on exactly these inputs — and it
substitutes the sentinel 1e100 for each reciprocal pairwise-root entry
whose pairwise root product is zero, while the returned a_alpha_ijs
matrix still follows the (1-kij)*sqrt(ai*aj) combining rule. -/
theorem C6_support_zeros_sentinel (a_alphas : List ℝ) (kijs : List (List ℝ))
    (hnn : ∀ x ∈ a_alphas, 0 ≤ x)
    (hsymm : ∀ p q, p < a_alphas.length → q < a_alphas.length →
      mget kijs p q = mget kijs q p)
    (hzero : ∃ i, i < a_alphas.length ∧ lget a_alphas i = 0) :
    a_alpha_aijs_composition_independent a_alphas kijs = Except.error ()
    ∧ (∀ i j, i < a_alphas.length → j < a_alphas.length → i ≤ j →
        Real.sqrt (lget a_alphas i) * Real.sqrt (lget a_alphas j) = 0 →
        mget (a_alpha_aijs_composition_independent_support_zeros a_alphas kijs).2.2 i j
          = 1e100)
    ∧ (∀ i j, i < a_alphas.length → j < a_alphas.length →
        mget (a_alpha_aijs_composition_independent_support_zeros a_alphas kijs).1 i j
          = (1 - mget kijs i j) * Real.sqrt (lget a_alphas i * lget a_alphas j)) := by
  refine ⟨?_, ?_, ?_⟩
  · obtain ⟨i, hi, hzi⟩ := hzero
    unfold a_alpha_aijs_composition_independent
    rw [if_pos]
    exact ⟨i, hi, i, le_refl i, hi, by rw [hzi, Real.sqrt_zero, zero_mul]⟩
  · intro i j hi hj hij hterm
    show mget (a_alpha_ij_roots_inv_sz a_alphas) i j = 1e100
    unfold a_alpha_ij_roots_inv_sz
    rw [mget_map_range (fun i j => a_alpha_ij_roots_inv_entry a_alphas i j) hi hj]
    unfold a_alpha_ij_roots_inv_entry
    rw [if_pos hij, if_pos hterm]
  · intro i j hi hj
    show mget (a_alpha_aijs a_alphas kijs) i j = _
    rw [mget_a_alpha_aijs hi hj, a_alpha_ijs_entry_eq hnn hsymm hi hj]

/-- C6 witness: the theorem applied to a_alphas = [0, 4] with zero
interaction parameters; the sentinel conclusion is instantiated at the
(0, 1) entry and the combining-rule conclusion at the (1, 1) entry. -/
theorem C6_witness :
    mget (a_alpha_aijs_composition_independent_support_zeros
        [0, 4] [[0, 0], [0, 0]]).2.2 0 1 = 1e100
    ∧ mget (a_alpha_aijs_composition_independent_support_zeros
        [0, 4] [[0, 0], [0, 0]]).1 1 1
      = (1 - mget [[0, 0], [0, 0]] 1 1) * Real.sqrt (lget [0, 4] 1 * lget [0, 4] 1) := by
  have h := C6_support_zeros_sentinel [0, 4] [[0, 0], [0, 0]]
    (by intro x hx; simp at hx; rcases hx with h | h <;> norm_num [h])
    (by
      intro p q hp hq
      simp only [List.length_cons, List.length_nil] at hp hq
      interval_cases p <;> interval_cases q <;> norm_num [mget, lget])
    ⟨0, by norm_num, by norm_num [lget]⟩
  refine ⟨h.2.1 0 1 (by norm_num) (by norm_num) (by norm_num) ?_, h.2.2 1 1 (by norm_num) (by norm_num)⟩
  have h0 : lget [(0 : ℝ), 4] 0 = 0 := by norm_num [lget]
  rw [h0, Real.sqrt_zero, zero_mul]

/-- C7: the negative-composition guard of the flash
successive-substitution loop: whenever the Rachford-Rice update produces
a composition vector with a negative entry, renormIfNeg (the guard
applied by sequential_substitution_VL to each phase before the iteration
continues, raising no error) replaces the vector with the absolute
values of its entries renormalized to sum exactly 1. -/
theorem C7_abs_renormalization (l : List ℝ) (h : ∃ x ∈ l, x < 0) :
    renormIfNeg l = l.map (fun x => |x| / (l.map fun y => |y|).sum)
    ∧ (renormIfNeg l).sum = 1 := by
  have habs_pos : 0 < (l.map fun y => |y|).sum := by
    obtain ⟨x, hx, hneg⟩ := h
    have h1 : |x| ∈ l.map fun y => |y| := List.mem_map_of_mem _ hx
    have h2 : ∀ y ∈ l.map fun y => |y|, 0 ≤ y := by
      intro y hy
      obtain ⟨z, _, rfl⟩ := List.mem_map.mp hy
      exact abs_nonneg z
    have h3 : |x| ≤ (l.map fun y => |y|).sum := List.single_le_sum h2 _ h1
    have h4 : 0 < |x| := abs_pos.mpr (ne_of_lt hneg)
    linarith
  have heq : renormIfNeg l = l.map fun x => |x| / (l.map fun y => |y|).sum :=
    if_pos h
  refine ⟨heq, ?_⟩
  rw [heq]
  have hmm : (l.map fun x => |x| / (l.map fun y => |y|).sum)
      = (l.map fun y => |y|).map fun t => t * ((l.map fun y => |y|).sum)⁻¹ := by
    rw [List.map_map]
    refine List.map_congr_left fun x _ => ?_
    simp [div_eq_mul_inv]
  rw [hmm]
  have hsum : ((l.map fun y => |y|).map fun t => t * ((l.map fun y => |y|).sum)⁻¹).sum
      = ((l.map fun y => |y|).map id).sum * ((l.map fun y => |y|).sum)⁻¹ :=
    List.sum_map_mul_right _ id _
  rw [hsum, List.map_id]
  exact mul_inv_cancel₀ (ne_of_gt habs_pos)

/-- C7 witness: the guard applied to the concrete vector [-(1/2), 1/2]. -/
theorem C7_witness :
    renormIfNeg [-(1/2), 1/2]
        = [-(1/2), 1/2].map (fun x => |x| / ([-(1/2), (1/2 : ℝ)].map fun y => |y|).sum)
    ∧ (renormIfNeg [-(1/2), (1/2 : ℝ)]).sum = 1 :=
  C7_abs_renormalization _ ⟨-(1/2), by norm_num, by norm_num⟩

/-- C10: calling to_TP_zs with T, P and zs all equal to the stored
instance values returns the very same object, and a new instance is
constructed exactly when at least one of T, P or zs differs. -/
theorem C10_to_TP_zs_identity (sT sP T P : ℝ) (szs zs : List ℝ) :
    (to_TP_zs sT sP szs T P zs = ToTPZsResult.same
      ↔ (T = sT ∧ P = sP ∧ zs = szs))
    ∧ (to_TP_zs sT sP szs T P zs = ToTPZsResult.construct T P zs
      ↔ ¬(T = sT ∧ P = sP ∧ zs = szs)) := by
  unfold to_TP_zs
  by_cases h : T ≠ sT ∨ P ≠ sP ∨ zs ≠ szs
  · rw [if_pos h]
    constructor
    · simp only [iff_iff_implies_and_implies]
      constructor
      · intro hc; cases hc
      · intro hc; exfalso; tauto
    · simp only [true_iff, iff_true_intro rfl]
      tauto
  · rw [if_neg h]
    push_neg at h
    constructor
    · simp only [true_iff, iff_true_intro rfl]
      exact ⟨h.1, h.2.1, h.2.2⟩
    · constructor
      · intro hc; cases hc
      · intro hc; exact absurd ⟨h.1, h.2.1, h.2.2⟩ hc

/-- C2: a sequential-substitution flash call (at least one iteration
allowed; the source default maxiter is 1000 and the default tolerance
xtol is 1e-13) terminates successfully only when the error sum over
species of (Ki*xi/yi - 1)^2 falls below the tolerance: every successful
return carries a final error below xtol, and when the iteration bound is
exhausted without the error meeting the tolerance the loop produces the
fatal no-convergence failure instead of a result. -/
theorem C2_ss_success_requires_tolerance
    (lnphis_l lnphis_g : List ℝ → List ℝ)
    (rr : List ℝ → List ℝ → Option ℝ → ℝ × List ℝ × List ℝ)
    (zs : List ℝ) (xtol ttol : ℝ) (nc : Bool) :
    ∀ (fuel : ℕ) (xs ys : List ℝ) (VF : Option ℝ) (out : SSOut),
      sequential_substitution_VL lnphis_l lnphis_g rr zs xtol ttol nc fuel xs ys VF
        = Except.ok out →
      out.err < xtol := by
  intro fuel
  induction fuel with
  | zero =>
    intro xs ys VF out h
    exact absurd h (by simp [sequential_substitution_VL])
  | succ n ih =>
    intro xs ys VF out h
    simp only [sequential_substitution_VL] at h
    split_ifs at h with h1 h2 h3 <;>
      first
        | (have hout := Except.ok.inj h; rw [← hout]; assumption)
        | (exact absurd h (by simp))
        | (exact ih _ _ _ _ h)

/-- C2 witness: one allowed iteration with oracles whose error sum is 0;
the loop returns successfully and the theorem yields 0 < 1e-13. -/
theorem C2_witness :
    sequential_substitution_VL (fun _ => [0]) (fun _ => [0])
        (fun _ _ _ => (1/2, [1], [1])) [1] (1e-13) (1e-5) false 1 [1] [1] none
      = Except.ok ⟨1/2, [1], [1], 0⟩
    ∧ (0 : ℝ) < 1e-13 := by
  have hren : renormIfNeg [(1 : ℝ)] = [1] := by
    unfold renormIfNeg
    rw [if_neg]
    push_neg
    intro x hx
    simp only [List.mem_singleton] at hx
    rw [hx]
    norm_num
  have heval : sequential_substitution_VL (fun _ => [0]) (fun _ => [0])
      (fun _ _ _ => (1/2, [1], [1])) [1] (1e-13) (1e-5) false 1 [1] [1] none
      = Except.ok ⟨1/2, [1], [1], 0⟩ := by
    simp only [sequential_substitution_VL]
    rw [if_neg (by simp)]
    have herr : errSS (List.zipWith (fun l g => Real.exp (l - g)) [(0 : ℝ)] [(0 : ℝ)])
        [1] [1] = 0 := by
      simp [errSS, List.zipWith]
    rw [herr] at *
    simp only [hren]
    rw [if_pos (by norm_num : (0 : ℝ) < 1e-13)]
  exact ⟨heval,
    C2_ss_success_requires_tolerance (fun _ => [0]) (fun _ => [0])
      (fun _ _ _ => (1/2, [1], [1])) [1] (1e-13) (1e-5) false 1 [1] [1] none
      ⟨1/2, [1], [1], 0⟩ heval⟩

/-- C4: in the flash successive-substitution loop with the near-critical
guard active (the source default), whenever the sum over species of
|xi - yi| between the two freshly updated trial phase compositions falls
below the trivial-solution tolerance, the call fails with the
trivial-condition error rather than returning a two-phase result. -/
theorem C4_trivial_solution_guard
    (lnphis_l lnphis_g : List ℝ → List ℝ)
    (rr : List ℝ → List ℝ → Option ℝ → ℝ × List ℝ × List ℝ)
    (zs : List ℝ) (xtol ttol : ℝ) (fuel : ℕ) (xs ys : List ℝ) (VF : Option ℝ)
    (h : compDiff
        (renormIfNeg (rr zs (List.zipWith (fun l g => Real.exp (l - g))
          (lnphis_l xs) (lnphis_g ys)) VF).2.1)
        (renormIfNeg (rr zs (List.zipWith (fun l g => Real.exp (l - g))
          (lnphis_l xs) (lnphis_g ys)) VF).2.2) < ttol) :
    sequential_substitution_VL lnphis_l lnphis_g rr zs xtol ttol true
        (fuel + 1) xs ys VF
      = Except.error FlashError.trivialSolution := by
  simp only [sequential_substitution_VL, eq_self_iff_true, true_and]
  rw [if_pos h]

/-- C4 witness: oracles whose Rachford-Rice update returns the same
composition for both phases; the trivial-solution guard fires. -/
theorem C4_witness :
    sequential_substitution_VL (fun _ => [0, 0]) (fun _ => [0, 0])
        (fun _ _ _ => (1/2, [1/2, 1/2], [1/2, 1/2])) [1/2, 1/2]
        (1e-13) (1e-5) true 1 [1/2, 1/2] [1/2, 1/2] none
      = Except.error FlashError.trivialSolution := by
  refine C4_trivial_solution_guard _ _ _ _ _ _ 0 _ _ none ?_
  have hren : renormIfNeg [(1 : ℝ)/2, 1/2] = [1/2, 1/2] := by
    unfold renormIfNeg
    rw [if_neg]
    push_neg
    intro x hx
    simp only [List.mem_cons, List.mem_singleton] at hx
    rcases hx with h | h | h
    · rw [h]; norm_num
    · rw [h]; norm_num
    · cases h
  simp only [hren, compDiff]
  norm_num

/-- C3 counterexample: when both one-sided trials report a phase failure
(trial phase type matched the reference) while neither is trivial
(lnK_2_tot = 1, far above the default trivial criteria 1e-4) nor within
the stability threshold (mole-number sum 2, criterion 1e-7),
stability_Michelsen classifies the mixture as stable even though the
criterion stated by the claim does not hold, so the claimed
exactly-when equivalence is false at this input. -/
theorem C3_counterexample :
    (stability_Michelsen [1] ⟨2, [Real.exp 1], true⟩ ⟨2, [Real.exp 1], true⟩
        (1e-4) (1e-7)).stable
    ∧ ¬ claimed_stable ⟨2, [Real.exp 1], true⟩ ⟨2, [Real.exp 1], true⟩
        (1e-4) (1e-7) := by
  have hln : lnK2tot [Real.exp 1] = 1 := by
    simp [lnK2tot, Real.log_exp]
  constructor
  · exact Or.inl ⟨rfl, rfl⟩
  · rintro ⟨h1, -⟩
    rw [hln] at h1
    simp only at h1
    rcases h1 with h | h <;> norm_num at h

/-- C3 amended: stability_Michelsen classifies the mixture as stable
exactly when each of the two one-sided trials is classified as trivial
or within the stability threshold of the reference, or when both trials
reported a phase failure; whenever the result is unstable, the returned
K-value estimate is the element-wise product of the two trial K-value
vectors. -/
theorem C3_stability_decision (Ks_init : List ℝ) (g l : StabTrial) (tc sc : ℝ) :
    ((stability_Michelsen Ks_init g l tc sc).stable ↔
      ((g.phase_failure = true ∧ l.phase_failure = true)
        ∨ claimed_stable g l tc sc))
    ∧ (¬ (stability_Michelsen Ks_init g l tc sc).stable →
        (stability_Michelsen Ks_init g l tc sc).Ks
          = List.zipWith (fun a b => a * b) g.Ks l.Ks) := by
  constructor
  · show ((g.phase_failure = true ∧ l.phase_failure = true) ∨ _ ∨ _ ∨ _ ∨ _) ↔ _
    unfold claimed_stable
    tauto
  · intro h
    exact if_neg h

/-- C3 witness: the amended theorem applied to two non-failing,
non-trivial, out-of-threshold trials; the verdict is unstable and the
returned K estimate is the element-wise product of the trial K sets. -/
theorem C3_witness :
    (stability_Michelsen [1] ⟨2, [Real.exp 1], false⟩ ⟨2, [Real.exp 1], false⟩
        (1e-4) (1e-7)).Ks
      = [Real.exp 1 * Real.exp 1] := by
  have h := C3_stability_decision [1] ⟨2, [Real.exp 1], false⟩
    ⟨2, [Real.exp 1], false⟩ (1e-4) (1e-7)
  have hln : lnK2tot [Real.exp 1] = 1 := by
    simp [lnK2tot, Real.log_exp]
  have hns : ¬ (stability_Michelsen [1] ⟨2, [Real.exp 1], false⟩
      ⟨2, [Real.exp 1], false⟩ (1e-4) (1e-7)).stable := by
    rw [h.1]
    rintro (⟨hg, -⟩ | ⟨hc, -⟩)
    · exact absurd hg (by simp)
    · rw [hln] at hc
      simp only at hc
      rcases hc with hc | hc <;> norm_num at hc
  have hK := h.2 hns
  simpa using hK

/-- C5 counterexample: the generic GCEOSMIX.fugacity_coefficients, one
of the two implementations the claim covers, substitutes
log(sys.float_info.min) = -690.7755278982137 — not zero — when its log
term receives a non-positive argument; at argument 0 the substituted
value is therefore nonzero, refuting the claim as stated. -/
theorem C5_counterexample :
    GCEOSMIX_logF 0 = -690.7755278982137 ∧ GCEOSMIX_logF 0 ≠ 0 := by
  unfold GCEOSMIX_logF
  rw [if_neg (by norm_num : ¬(0 : ℝ) < 0)]
  norm_num

/-- C5 amended: when the first logarithm term of the
PRMIX fugacity-coefficient formula receives a non-positive argument
(Z - B ≤ 0, as at unstable or non-physical roots during iteration), the
unguarded formula raises a domain error while
PRMIX.fugacity_coefficients catches it and substitutes zero for that
term, returning per-species values equal to the formula with 0 in place
of that log term; the generic GCEOSMIX.fugacity_coefficients also
catches the error on its log term but substitutes the large negative
sentinel -690.7755278982137 instead of zero. -/
theorem C5_log_domain_substitution (T P a_alpha b : ℝ)
    (bs fst : List ℝ) (N : ℕ) (Z F : ℝ)
    (hZ : Z - b * (P * (1 / T)) * R_inv ≤ 0)
    (hF : F ≤ 0) :
    PRMIX_fugacity_coefficients_unguarded T P a_alpha b bs fst N Z
        = Except.error ()
    ∧ PRMIX_fugacity_coefficients T P a_alpha b bs fst N Z
        = PRMIX_fugacity_coefficients_x0zero T P a_alpha b bs fst N Z
    ∧ GCEOSMIX_logF F = -690.7755278982137 := by
  have hnot : ¬ 0 < Z - b * (P * (1 / T)) * R_inv := not_lt.mpr hZ
  refine ⟨?_, ?_, ?_⟩
  · simp only [PRMIX_fugacity_coefficients_unguarded, trylog]
    rw [if_neg hnot]
    rfl
  · simp only [PRMIX_fugacity_coefficients, PRMIX_fugacity_coefficients_x0zero]
    rw [if_neg hnot]
  · unfold GCEOSMIX_logF
    rw [if_neg (not_lt.mpr hF)]

/-- C5 witness: the amended theorem applied to the concrete state T = 1,
P = 1, b = 1, a_alpha = 1, Z = 0 (so Z - B = -1/R < 0) and F = -1. -/
theorem C5_witness :
    PRMIX_fugacity_coefficients_unguarded 1 1 1 1 [1] [1] 1 0
        = Except.error ()
    ∧ PRMIX_fugacity_coefficients 1 1 1 1 [1] [1] 1 0
        = PRMIX_fugacity_coefficients_x0zero 1 1 1 1 [1] [1] 1 0
    ∧ GCEOSMIX_logF (-1) = -690.7755278982137 :=
  C5_log_domain_substitution 1 1 1 1 [1] [1] 1 0 (-1)
    (by norm_num [R_inv, R]) (by norm_num)

/-- C8: recomputing a_alpha and its temperature derivative at an
unchanged temperature reuses the cached pairwise triple (a_alpha_ijs,
a_alpha_i_roots, a_alpha_ij_roots_inv) rather than recomputing the
pairwise root products — the computation reads exactly the cached triple
and leaves the instance unchanged — and two successive computations at
the same temperature on the same instance return identical results. -/
theorem C8_cache_reuse (s : MixState) (a_alphas da_alpha_dTs : List ℝ)
    (T : ℝ) (hT : T = s.T) :
    (∀ c, s.cache = some c →
      (a_alpha_and_derivatives_py s a_alphas da_alpha_dTs T true).used = c
      ∧ (a_alpha_and_derivatives_py s a_alphas da_alpha_dTs T true).state = s)
    ∧ ((a_alpha_and_derivatives_py
          (a_alpha_and_derivatives_py s a_alphas da_alpha_dTs T true).state
          a_alphas da_alpha_dTs T true).a_alpha
        = (a_alpha_and_derivatives_py s a_alphas da_alpha_dTs T true).a_alpha
      ∧ (a_alpha_and_derivatives_py
          (a_alpha_and_derivatives_py s a_alphas da_alpha_dTs T true).state
          a_alphas da_alpha_dTs T true).da_alpha_dT
        = (a_alpha_and_derivatives_py s a_alphas da_alpha_dTs T true).da_alpha_dT
      ∧ (a_alpha_and_derivatives_py
          (a_alpha_and_derivatives_py s a_alphas da_alpha_dTs T true).state
          a_alphas da_alpha_dTs T true).used
        = (a_alpha_and_derivatives_py s a_alphas da_alpha_dTs T true).used) := by
  rcases s with ⟨sT, szs, skijs, cache⟩
  simp only [MixState.mk.injEq] at hT ⊢
  subst hT
  cases cache with
  | some c =>
    simp [a_alpha_and_derivatives_py]
  | none =>
    simp [a_alpha_and_derivatives_py]

/-- C8 witness: the theorem applied to a concrete instance carrying a
cached triple; the computation returns exactly that triple and a second
computation at the same temperature returns the same a_alpha. -/
theorem C8_witness :
    (a_alpha_and_derivatives_py ⟨300, [1], [[0]], some ⟨[[7]], [3], [[5]]⟩⟩
        [4] [0] 300 true).used = ⟨[[7]], [3], [[5]]⟩
    ∧ (a_alpha_and_derivatives_py
        (a_alpha_and_derivatives_py ⟨300, [1], [[0]], some ⟨[[7]], [3], [[5]]⟩⟩
          [4] [0] 300 true).state [4] [0] 300 true).a_alpha
      = (a_alpha_and_derivatives_py ⟨300, [1], [[0]], some ⟨[[7]], [3], [[5]]⟩⟩
          [4] [0] 300 true).a_alpha :=
  ⟨((C8_cache_reuse ⟨300, [1], [[0]], some ⟨[[7]], [3], [[5]]⟩⟩ [4] [0] 300
      rfl).1 ⟨[[7]], [3], [[5]]⟩ rfl).1,
   (C8_cache_reuse ⟨300, [1], [[0]], some ⟨[[7]], [3], [[5]]⟩⟩ [4] [0] 300
      rfl).2.1⟩

end ThermoSpec
